import Mathlib

/-!
Verification of the grouped-statistics streaming aggregator (`group_stats`).

The grouping functions `group_number_stats_in_buf_reader` and
`group_string_stats_in_buf_reader` are embedded from `src/main.rs`.
The accumulator modules `number_stats.rs` and `string_stats.rs` are not part
of the provided sources; their state and operations are modelled from the
specification (see the doc comments on `NumberStats` and `StringStats`).

Rust `f64` values are embedded as exact rationals extended with the three
non-finite IEEE values (`nan`, `posInf`, `negInf`); rounding of decimal
literals to the nearest double and overflow to infinity are not modelled,
since no claim under verification depends on them.
-/

set_option allowUnsafeReducibility true

attribute [semireducible] Rat.add Rat.mul Rat.sub Rat.inv

/-- Embedding of Rust `f64` values: an exact rational for the finite case,
plus the non-finite IEEE values NaN and the two infinities. -/
inductive F64 where
  | finite (q : ℚ)
  | nan
  | posInf
  | negInf
deriving DecidableEq, Repr

/-- Rust `num == 0.0`: true exactly for finite zero (NaN and infinities
compare unequal to zero; IEEE -0.0 is the same rational 0). -/
def F64.isZero : F64 → Bool
  | .finite q => q == 0
  | _ => false

/-- True for the `finite` constructor only. -/
def F64.isFinite : F64 → Bool
  | .finite _ => true
  | _ => false

/-- The rational carried by a finite value, 0 otherwise. -/
def F64.toRat : F64 → ℚ
  | .finite q => q
  | _ => 0

/-- IEEE negation on the embedded values. -/
def F64.neg : F64 → F64
  | .finite q => .finite (-q)
  | .nan => .nan
  | .posInf => .negInf
  | .negInf => .posInf

/-- IEEE addition on the embedded values (NaN propagates; opposite
infinities give NaN). -/
def F64.add : F64 → F64 → F64
  | .nan, _ => .nan
  | _, .nan => .nan
  | .posInf, .negInf => .nan
  | .negInf, .posInf => .nan
  | .posInf, _ => .posInf
  | _, .posInf => .posInf
  | .negInf, _ => .negInf
  | _, .negInf => .negInf
  | .finite a, .finite b => .finite (a + b)

/-- IEEE subtraction, as addition of the negation. -/
def F64.sub (a b : F64) : F64 := a.add b.neg

/-- IEEE multiplication on the embedded values (NaN propagates;
infinity times zero gives NaN). -/
def F64.mul : F64 → F64 → F64
  | .nan, _ => .nan
  | _, .nan => .nan
  | .posInf, .posInf => .posInf
  | .posInf, .negInf => .negInf
  | .negInf, .posInf => .negInf
  | .negInf, .negInf => .posInf
  | .posInf, .finite b => if b = 0 then .nan else if 0 < b then .posInf else .negInf
  | .finite a, .posInf => if a = 0 then .nan else if 0 < a then .posInf else .negInf
  | .negInf, .finite b => if b = 0 then .nan else if 0 < b then .negInf else .posInf
  | .finite a, .negInf => if a = 0 then .nan else if 0 < a then .negInf else .posInf
  | .finite a, .finite b => .finite (a * b)

/-- Division of an embedded value by a positive natural count (the only
division the Welford update performs; the divisor `count + 1` is never 0). -/
def F64.divNat (a : F64) (n : ℕ) : F64 :=
  match a with
  | .finite q => .finite (q / (n : ℚ))
  | .nan => .nan
  | .posInf => .posInf
  | .negInf => .negInf

/-- IEEE strict less-than (false whenever NaN is involved). -/
def F64.lt : F64 → F64 → Bool
  | .nan, _ => false
  | _, .nan => false
  | .negInf, .negInf => false
  | .negInf, _ => true
  | _, .negInf => false
  | .posInf, _ => false
  | _, .posInf => true
  | .finite a, .finite b => a < b

/-- Digits of a numeral read into a natural number. -/
def digitsToNat (ds : List Char) : ℕ :=
  ds.foldl (fun n c => 10 * n + (c.toNat - Char.toNat '0')) 0

/-- Case-insensitive comparison of a character list against a lowercase
keyword, used for the special `f64` tokens. -/
def lowerEq (cs : List Char) (s : String) : Bool :=
  cs.map Char.toLower == s.data

/-- Exponent suffix of a decimal `f64` literal: optional sign then at least
one digit, consuming the whole remainder. -/
def parseExpPart (mant : ℚ) (r : List Char) : Option ℚ :=
  let sp : Bool × List Char :=
    match r with
    | '+' :: t => (true, t)
    | '-' :: t => (false, t)
    | t => (true, t)
  let dp := sp.2.span Char.isDigit
  if dp.1.isEmpty || !dp.2.isEmpty then none
  else
    let e := digitsToNat dp.1
    some (if sp.1 then mant * (10 : ℚ) ^ e else mant / (10 : ℚ) ^ e)

/-- Unsigned decimal part of an `f64` literal: digits, optional fraction,
optional exponent, with at least one digit in the mantissa. The value is
kept as an exact rational. -/
def parseDecimal (cs : List Char) : Option ℚ :=
  let p1 := cs.span Char.isDigit
  let ip := p1.1
  let p2 : List Char × List Char :=
    match p1.2 with
    | '.' :: r => r.span Char.isDigit
    | _ => ([], p1.2)
  let fp := p2.1
  if ip.isEmpty && fp.isEmpty then none
  else
    let mant : ℚ := (digitsToNat ip : ℚ) + (digitsToNat fp : ℚ) / (10 : ℚ) ^ fp.length
    match p2.2 with
    | [] => some mant
    | 'e' :: r3 => parseExpPart mant r3
    | 'E' :: r3 => parseExpPart mant r3
    | _ => none

/-- Model of Rust `str::parse::<f64>()` (`f64::from_str`): optional sign,
then a case-insensitive `inf`/`infinity`/`nan` token or a decimal literal.
Note that `NaN` and `inf` PARSE SUCCESSFULLY in Rust. Finite literals are
kept exact; rounding to the nearest double and overflow to infinity are
outside the model. -/
def parseF64 (s : String) : Option F64 :=
  let sr : Bool × List Char :=
    match s.data with
    | '+' :: t => (true, t)
    | '-' :: t => (false, t)
    | t => (true, t)
  let pos := sr.1
  let body := sr.2
  if lowerEq body "inf" || lowerEq body "infinity" then
    some (if pos then F64.posInf else F64.negInf)
  else if lowerEq body "nan" then some F64.nan
  else
    match parseDecimal body with
    | some q => some (F64.finite (if pos then q else -q))
    | none => none

/-- Modelled from the spec: `number_stats.rs` is not among the provided
sources. Per §3/§4.1, `NumberStats` holds `count`, `null_count`, `min`,
`max`, `mean` and `running_sq_dev` (Welford's sum of squared deviations).
The u64 counters are embedded as `ℕ`. -/
structure NumberStats where
  count : ℕ
  null_count : ℕ
  min : F64
  max : F64
  mean : F64
  running_sq_dev : F64
deriving DecidableEq, Repr

/-- Modelled from the spec: a fresh accumulator with zero counts; per §3
`min`/`max`/`mean` are undefined while `count == 0` (placeholder 0 here,
overwritten by the first `add`). -/
def NumberStats.new : NumberStats :=
  { count := 0, null_count := 0, min := F64.finite 0, max := F64.finite 0,
    mean := F64.finite 0, running_sq_dev := F64.finite 0 }

/-- Modelled from the spec (§4.1): first observation initializes
`mean = min = max = value`, `running_sq_dev = 0`; later observations apply
the Welford update `delta = value - mean`; `mean += delta / (count+1)`;
`running_sq_dev += delta * (value - mean)`, with `min`/`max` updated by
comparison. -/
def NumberStats.add (s : NumberStats) (v : F64) : NumberStats :=
  if s.count = 0 then
    { s with count := 1, mean := v, min := v, max := v,
             running_sq_dev := F64.finite 0 }
  else
    let delta := v.sub s.mean
    let mean2 := s.mean.add (delta.divNat (s.count + 1))
    { s with count := s.count + 1,
             mean := mean2,
             running_sq_dev := s.running_sq_dev.add (delta.mul (v.sub mean2)),
             min := if F64.lt v s.min then v else s.min,
             max := if F64.lt s.max v then v else s.max }

/-- Modelled from the spec (§4.1): `add_null` increments `null_count` only. -/
def NumberStats.add_null (s : NumberStats) : NumberStats :=
  { s with null_count := s.null_count + 1 }

/-- Modelled from the spec: `string_stats.rs` is not among the provided
sources. Per §3/§4.2, `StringStats` tracks the distinct values seen (here a
duplicate-free list standing for the set), the configured cap
(`none` = unlimited, `some 0` = disabled), the one-way `capped` latch, and a
null count. -/
structure StringStats where
  seen : List String
  cap : Option ℕ
  capped : Bool
  null_count : ℕ
deriving DecidableEq, Repr

/-- Modelled from the spec (§4.2): an empty tracker with the given cap. -/
def StringStats.new (cap : Option ℕ) : StringStats :=
  { seen := [], cap := cap, capped := false, null_count := 0 }

/-- Modelled from the spec (§4.2): `observe` is a no-op when disabled
(`cap = some 0`) or already capped; otherwise it inserts the value and
latches `capped` when the set outgrows the cap. -/
def StringStats.observe (s : StringStats) (v : String) : StringStats :=
  match s.cap with
  | some 0 => s
  | some n =>
    if s.capped then s
    else if s.seen.contains v then s
    else if n < (s.seen ++ [v]).length then
      { s with seen := s.seen ++ [v], capped := true }
    else { s with seen := s.seen ++ [v] }
  | none =>
    if s.seen.contains v then s else { s with seen := s.seen ++ [v] }

/-- Modelled from the spec (§4.3): a non-null observation feeds the
cardinality tracker. -/
def StringStats.add (s : StringStats) (v : String) : StringStats :=
  s.observe v

/-- Modelled from the spec (§4.3): a null observation only bumps the null
count; `seen` is untouched. -/
def StringStats.add_null (s : StringStats) : StringStats :=
  { s with null_count := s.null_count + 1 }

/-- Rust `str::len`: the UTF-8 byte length of a string. -/
def byteLen (s : String) : ℕ :=
  s.data.foldl (fun n c => n + c.utf8Size) 0

/-- The number of Unicode characters of a string (Rust
`str::chars().count()`). -/
def charCount (s : String) : ℕ :=
  s.data.length

/-- Rust `str::rsplit_once` on character lists: split at the LAST occurrence
of the delimiter, yielding (part before, part after), or `none` when the
delimiter does not occur. -/
def rsplitOnceList (cs : List Char) (d : Char) : Option (List Char × List Char) :=
  match cs with
  | [] => none
  | c :: rest =>
    match rsplitOnceList rest d with
    | some (k, v) => some (c :: k, v)
    | none => if c = d then some ([], rest) else none

/-- Rust `str::rsplit_once` on strings. -/
def rsplitOnce (s : String) (d : Char) : Option (String × String) :=
  match rsplitOnceList s.data d with
  | some (k, v) => some (String.mk k, String.mk v)
  | none => none

/-- Lookup in an association list standing for the Rust `HashMap` (the map
is observed only through this function; `HashMap` iteration order plays no
role in the claims). -/
def lookupKey {α : Type} (m : List (String × α)) (k : String) : Option α :=
  match m with
  | [] => none
  | (k0, v0) :: rest => if k0 = k then some v0 else lookupKey rest k

/-- Rust `map.entry(k).or_insert(dflt)` followed by one mutation `f` of the
entry: an existing entry is replaced by `f` of it, a missing one by
`f dflt`. -/
def upsertWith {α : Type} (m : List (String × α)) (k : String) (dflt : α)
    (f : α → α) : List (String × α) :=
  match m with
  | [] => [(k, f dflt)]
  | (k0, v0) :: rest =>
    if k0 = k then (k0, f v0) :: rest else (k0, v0) :: upsertWith rest k dflt f

/-- Rust `map.entry(k).and_modify(f).or_insert(dflt)`: an existing entry is
replaced by `f` of it, a missing one by `dflt` — note that `f` is NOT
applied to the freshly inserted default. -/
def modifyOrInsert {α : Type} (m : List (String × α)) (k : String)
    (f : α → α) (dflt : α) : List (String × α) :=
  match m with
  | [] => [(k, dflt)]
  | (k0, v0) :: rest =>
    if k0 = k then (k0, f v0) :: rest else (k0, v0) :: modifyOrInsert rest k f dflt

/-- The per-value dispatch of `group_number_stats_in_buf_reader`
(src/main.rs lines 135–139): parse failure → `add_null`; parse success with
`zero_as_null` and a zero value → `add_null`; otherwise → `add`. -/
def numUpdate (zeroAsNull : Bool) (v : String) (st : NumberStats) : NumberStats :=
  match parseF64 v with
  | some num => if zeroAsNull && num.isZero then st.add_null else st.add num
  | none => st.add_null

/-- One loop iteration of `group_number_stats_in_buf_reader`
(src/main.rs lines 128–148): right-split the line; on success update the
group's entry with `numUpdate` (creating it from `NumberStats::new`); with
no delimiter, `entry("<INVALID>").and_modify(add_null).or_insert(new)`. -/
def ingestNumber (d : Char) (z : Bool) (m : List (String × NumberStats))
    (line : String) : List (String × NumberStats) :=
  match rsplitOnce line d with
  | some (g, v) => upsertWith m g NumberStats.new (numUpdate z v)
  | none => modifyOrInsert m "<INVALID>" NumberStats.add_null NumberStats.new

/-- `group_number_stats_in_buf_reader` (src/main.rs lines 122–150) over a
list of already-framed lines. -/
def groupNumberStats (lines : List String) (d : Char) (z : Bool) :
    List (String × NumberStats) :=
  lines.foldl (ingestNumber d z) []

/-- The per-value dispatch of `group_string_stats_in_buf_reader`
(src/main.rs lines 165–172): with `empty_as_null` and an empty value, both
sub-accumulators get `add_null`; otherwise the value stats get the value and
the length stats get `value.len()` — the UTF-8 BYTE length. -/
def strUpdate (e : Bool) (v : String) (p : StringStats × NumberStats) :
    StringStats × NumberStats :=
  if e && v.isEmpty then (p.1.add_null, p.2.add_null)
  else (p.1.add v, p.2.add (F64.finite (byteLen v)))

/-- One loop iteration of `group_string_stats_in_buf_reader`
(src/main.rs lines 159–182); the sentinel branch applies `add_null` to the
value stats only, through `and_modify`/`or_insert`. -/
def ingestString (d : Char) (e : Bool) (cap : Option ℕ)
    (m : List (String × (StringStats × NumberStats))) (line : String) :
    List (String × (StringStats × NumberStats)) :=
  match rsplitOnce line d with
  | some (g, v) =>
    upsertWith m g (StringStats.new cap, NumberStats.new) (strUpdate e v)
  | none =>
    modifyOrInsert m "<INVALID>" (fun p => (p.1.add_null, p.2))
      (StringStats.new cap, NumberStats.new)

/-- `group_string_stats_in_buf_reader` (src/main.rs lines 152–184) over a
list of already-framed lines. -/
def groupStringStats (lines : List String) (d : Char) (e : Bool)
    (cap : Option ℕ) : List (String × (StringStats × NumberStats)) :=
  lines.foldl (ingestString d e cap) []

/-- A finite sequence of finite f64 values fed through `NumberStats.add`
into a fresh accumulator (the setting of the Welford-correctness property). -/
def numFold (qs : List ℚ) : NumberStats :=
  qs.foldl (fun s q => s.add (F64.finite q)) NumberStats.new

/-- Sum of squares of a sequence, the raw moment used by the naive two-pass
variance computation the spec compares against. -/
def sumSq (qs : List ℚ) : ℚ :=
  (qs.map (fun x => x ^ 2)).sum


/-! ## Association-list (HashMap) lemmas -/

theorem lookupKey_upsertWith_self {α : Type} (m : List (String × α)) (k : String)
    (dflt : α) (f : α → α) :
    lookupKey (upsertWith m k dflt f) k = some (f ((lookupKey m k).getD dflt)) := by
  induction m with
  | nil => simp [upsertWith, lookupKey]
  | cons p rest ih =>
    obtain ⟨k0, v0⟩ := p
    by_cases h : k0 = k
    · subst h
      simp [upsertWith, lookupKey]
    · simp [upsertWith, lookupKey, h, ih]

theorem lookupKey_upsertWith_ne {α : Type} (m : List (String × α)) (k j : String)
    (dflt : α) (f : α → α) (h : j ≠ k) :
    lookupKey (upsertWith m k dflt f) j = lookupKey m j := by
  induction m with
  | nil => simp [upsertWith, lookupKey, Ne.symm h]
  | cons p rest ih =>
    obtain ⟨k0, v0⟩ := p
    by_cases h0 : k0 = k
    · subst h0
      simp [upsertWith, lookupKey, Ne.symm h]
    · simp [upsertWith, lookupKey, h0, ih]

theorem lookupKey_modifyOrInsert_self {α : Type} (m : List (String × α)) (k : String)
    (f : α → α) (dflt : α) :
    lookupKey (modifyOrInsert m k f dflt) k
      = some ((lookupKey m k).elim dflt f) := by
  induction m with
  | nil => simp [modifyOrInsert, lookupKey]
  | cons p rest ih =>
    obtain ⟨k0, v0⟩ := p
    by_cases h : k0 = k
    · subst h
      simp [modifyOrInsert, lookupKey]
    · simp [modifyOrInsert, lookupKey, h, ih]

theorem lookupKey_modifyOrInsert_ne {α : Type} (m : List (String × α)) (k j : String)
    (f : α → α) (dflt : α) (h : j ≠ k) :
    lookupKey (modifyOrInsert m k f dflt) j = lookupKey m j := by
  induction m with
  | nil => simp [modifyOrInsert, lookupKey, Ne.symm h]
  | cons p rest ih =>
    obtain ⟨k0, v0⟩ := p
    by_cases h0 : k0 = k
    · subst h0
      simp [modifyOrInsert, lookupKey, Ne.symm h]
    · simp [modifyOrInsert, lookupKey, h0, ih]

/-! ## One-step (per line) unfolding of the grouping loops -/

theorem groupNumberStats_append (prior : List String) (line : String)
    (d : Char) (z : Bool) :
    groupNumberStats (prior ++ [line]) d z
      = ingestNumber d z (groupNumberStats prior d z) line := by
  simp [groupNumberStats, List.foldl_append]

theorem groupStringStats_append (prior : List String) (line : String)
    (d : Char) (e : Bool) (c : Option ℕ) :
    groupStringStats (prior ++ [line]) d e c
      = ingestString d e c (groupStringStats prior d e c) line := by
  simp [groupStringStats, List.foldl_append]

/-! ## Characterization of the right-split -/

theorem rsplitOnceList_none_notMem {cs : List Char} {d : Char}
    (h : rsplitOnceList cs d = none) : d ∉ cs := by
  induction cs with
  | nil => simp
  | cons c rest ih =>
    simp only [rsplitOnceList] at h
    cases hr : rsplitOnceList rest d with
    | some p =>
      obtain ⟨k0, v0⟩ := p
      rw [hr] at h
      simp at h
    | none =>
      rw [hr] at h
      by_cases hc : c = d
      · rw [if_pos hc] at h
        simp at h
      · simp only [List.mem_cons, not_or]
        exact ⟨fun hd => hc hd.symm, ih hr⟩

theorem rsplitOnceList_some_eq {cs k v : List Char} {d : Char}
    (h : rsplitOnceList cs d = some (k, v)) : cs = k ++ d :: v ∧ d ∉ v := by
  induction cs generalizing k v with
  | nil => simp [rsplitOnceList] at h
  | cons c rest ih =>
    simp only [rsplitOnceList] at h
    cases hr : rsplitOnceList rest d with
    | some p =>
      obtain ⟨k0, v0⟩ := p
      rw [hr] at h
      simp only [Option.some.injEq, Prod.mk.injEq] at h
      obtain ⟨hk, hv⟩ := h
      obtain ⟨he, hnv⟩ := ih hr
      subst hk
      subst hv
      exact ⟨by rw [he]; rfl, hnv⟩
    | none =>
      rw [hr] at h
      by_cases hc : c = d
      · rw [if_pos hc] at h
        simp only [Option.some.injEq, Prod.mk.injEq] at h
        obtain ⟨hk, hv⟩ := h
        subst hc
        subst hv
        rw [← hk]
        exact ⟨rfl, rsplitOnceList_none_notMem hr⟩
      · rw [if_neg hc] at h
        exact absurd h (by simp)

/-! ## Welford invariant -/

theorem sum_map_sub_sq (qs : List ℚ) (c : ℚ) :
    (qs.map (fun x => (x - c) ^ 2)).sum
      = sumSq qs - 2 * c * qs.sum + qs.length * c ^ 2 := by
  induction qs with
  | nil => simp [sumSq]
  | cons q t ih =>
    simp only [sumSq, List.map_cons, List.sum_cons, List.length_cons] at ih ⊢
    rw [ih]
    push_cast
    ring

theorem numFold_append (l : List ℚ) (a : ℚ) :
    numFold (l ++ [a]) = (numFold l).add (F64.finite a) := by
  simp [numFold, List.foldl_append]

theorem NumberStats.add_finite_of_pos (c nc : ℕ) (mn mx : F64) (me rs a : ℚ)
    (h : ¬ c = 0) :
    NumberStats.add ⟨c, nc, mn, mx, F64.finite me, F64.finite rs⟩ (F64.finite a)
      = ⟨c + 1, nc,
          if F64.lt (F64.finite a) mn then F64.finite a else mn,
          if F64.lt mx (F64.finite a) then F64.finite a else mx,
          F64.finite (me + (a - me) / ((c : ℚ) + 1)),
          F64.finite (rs + (a - me) * (a - (me + (a - me) / ((c : ℚ) + 1))))⟩ := by
  simp only [NumberStats.add, if_neg h, F64.sub, F64.neg, F64.add, F64.divNat,
    F64.mul]
  push_cast
  simp [sub_eq_add_neg]

theorem numFold_invariant (qs : List ℚ) :
    (numFold qs).count = qs.length ∧
    (qs ≠ [] →
      (numFold qs).mean = F64.finite (qs.sum / qs.length) ∧
      (numFold qs).running_sq_dev
        = F64.finite (sumSq qs - qs.sum ^ 2 / qs.length)) := by
  induction qs using List.reverseRecOn with
  | nil =>
    refine ⟨rfl, fun h => absurd rfl h⟩
  | append_singleton l a ih =>
    obtain ⟨hcount, hrest⟩ := ih
    rw [numFold_append]
    rcases eq_or_ne l [] with hl | hl
    · subst hl
      have h1 : (numFold []).add (F64.finite a)
          = ⟨1, 0, F64.finite a, F64.finite a, F64.finite a, F64.finite 0⟩ := by
        simp [numFold, NumberStats.new, NumberStats.add]
      rw [h1]
      refine ⟨rfl, fun _ => ⟨by simp, by simp [sumSq]⟩⟩
    · obtain ⟨hmean, hrsd⟩ := hrest hl
      have hc0 : (numFold l).count ≠ 0 := by
        rw [hcount]
        simpa [List.length_eq_zero] using hl
      have hn : (l.length : ℚ) ≠ 0 := by
        exact_mod_cast fun h => hl (List.length_eq_zero.mp (by exact_mod_cast h))
      have hn1 : (l.length : ℚ) + 1 ≠ 0 := by positivity
      rcases hst : numFold l with ⟨c, nc, mn, mx, me, rs⟩
      rw [hst] at hcount hmean hrsd hc0
      dsimp only at hcount hmean hrsd hc0 ⊢
      subst hmean
      subst hrsd
      subst hcount
      rw [NumberStats.add_finite_of_pos _ _ _ _ _ _ _ hc0]
      refine ⟨by simp, fun _ => ⟨?_, ?_⟩⟩
      · dsimp only
        simp only [F64.finite.injEq, List.sum_append, List.length_append,
          List.sum_cons, List.sum_nil, List.length_cons, List.length_nil]
        push_cast
        field_simp
        ring
      · dsimp only
        simp only [F64.finite.injEq, sumSq, List.map_append, List.sum_append,
          List.length_append, List.map_cons, List.map_nil, List.sum_cons,
          List.sum_nil, List.length_cons, List.length_nil]
        push_cast
        field_simp
        ring

/-! ## Claims -/

/-- C1: the claim says every delimiter-free line increments the sentinel
group's null count by exactly one, creating its accumulator on first
occurrence. The code's `entry("<INVALID>").and_modify(add_null).or_insert(new)`
skips `add_null` on the very first occurrence: the first such line creates
the accumulator with `null_count = 0` (in both numeric and string mode);
only later delimiter-free lines increment it. It does create/update no other
group. -/
theorem sentinel_first_line_creates_without_null_increment :
    groupNumberStats ["noDelimiterHere"] ',' false
      = [("<INVALID>", NumberStats.new)] ∧
    NumberStats.new.null_count = 0 ∧
    groupNumberStats ["noDelimiterHere", "noDelimiterHere"] ',' false
      = [("<INVALID>", NumberStats.new.add_null)] ∧
    NumberStats.new.add_null.null_count = 1 ∧
    groupStringStats ["noDelimiterHere"] ',' false none
      = [("<INVALID>", (StringStats.new none, NumberStats.new))] ∧
    (StringStats.new none).null_count = 0 := by
  decide

/-- C2 counterexample: the claim says values parsing to NaN or infinity are
treated as null and never reach `add`. But Rust's `"NaN".parse::<f64>()`
succeeds, NaN fails the `== 0.0` check, and the accumulator's `add` is
called with NaN: after line `"g,NaN"` (with `zero_as_null` on) group `g` has
`count = 1` and `null_count = 0`. -/
theorem nan_reaches_add_counterexample :
    parseF64 "NaN" = some F64.nan ∧
    F64.nan.isFinite = false ∧
    lookupKey (groupNumberStats ["g,NaN"] ',' true) "g"
      = some (NumberStats.new.add F64.nan) ∧
    (NumberStats.new.add F64.nan).count = 1 ∧
    (NumberStats.new.add F64.nan).null_count = 0 := by
  decide

/-- C2 amended: in numeric mode a raw value whose parse succeeds with a
non-finite f64 (NaN or an infinity) IS passed to the group accumulator's
`add` — it is not treated as null; only raw values whose parse fails are
nulled by the boundary. -/
theorem nonfinite_parse_success_reaches_add (prior : List String)
    (line : String) (d : Char) (z : Bool) (g v : String) (num : F64)
    (h1 : rsplitOnce line d = some (g, v)) (h2 : parseF64 v = some num)
    (h3 : num.isFinite = false) :
    lookupKey (groupNumberStats (prior ++ [line]) d z) g
      = some (((lookupKey (groupNumberStats prior d z) g).getD
          NumberStats.new).add num) := by
  rw [groupNumberStats_append]
  unfold ingestNumber
  rw [h1]
  rw [lookupKey_upsertWith_self]
  have hz : num.isZero = false := by
    cases num with
    | finite q => simp [F64.isFinite] at h3
    | nan => rfl
    | posInf => rfl
    | negInf => rfl
  simp [numUpdate, h2, hz]

theorem nonfinite_parse_success_reaches_add_witness :
    lookupKey (groupNumberStats ([] ++ ["g,inf"]) ',' true) "g"
      = some (((lookupKey (groupNumberStats [] ',' true) "g").getD
          NumberStats.new).add F64.posInf) :=
  nonfinite_parse_success_reaches_add [] "g,inf" ',' true "g" "inf" F64.posInf
    (by decide) (by decide) (by decide)

/-- C3 counterexample: the claim says the length fed to the length
statistics is the character count. The code feeds `value.len()`, the UTF-8
BYTE length: for value `"é"` (one character, two bytes) the length stats
receive 2, not 1. -/
theorem length_stats_get_bytes_counterexample :
    byteLen "é" = 2 ∧
    charCount "é" = 1 ∧
    lookupKey (groupStringStats ["g,é"] ',' false none) "g"
      = some ((StringStats.new none).add "é",
              NumberStats.new.add (F64.finite (byteLen "é"))) ∧
    NumberStats.new.add (F64.finite (byteLen "é"))
      ≠ NumberStats.new.add (F64.finite (charCount "é")) := by
  decide

/-- C3 amended: in string mode, for every non-null observed value the
number fed into the length statistics accumulator is the value's UTF-8 BYTE
length (`value.len()`), not its character count. -/
theorem length_stats_receive_byte_length (prior : List String) (line : String)
    (d : Char) (e : Bool) (c : Option ℕ) (g v : String)
    (h1 : rsplitOnce line d = some (g, v)) (h2 : (e && v.isEmpty) = false) :
    (lookupKey (groupStringStats (prior ++ [line]) d e c) g).map Prod.snd
      = some ((((lookupKey (groupStringStats prior d e c) g).getD
          (StringStats.new c, NumberStats.new)).2).add
            (F64.finite (byteLen v))) := by
  rw [groupStringStats_append]
  unfold ingestString
  rw [h1]
  rw [lookupKey_upsertWith_self]
  simp [strUpdate, h2]

theorem length_stats_receive_byte_length_witness :
    (lookupKey (groupStringStats ([] ++ ["g,é"]) ',' false none) "g").map Prod.snd
      = some ((((lookupKey (groupStringStats [] ',' false none) "g").getD
          (StringStats.new none, NumberStats.new)).2).add
            (F64.finite (byteLen "é"))) :=
  length_stats_receive_byte_length [] "g,é" ',' false none "g" "é"
    (by decide) (by decide)

/-- C4: in numeric mode, every line containing the delimiter produces
exactly one update of its group's accumulator — `numUpdate` applied once to
the previous entry (or to a fresh `NumberStats.new`), all other groups
untouched — and `numUpdate` is exactly the claimed dispatch: parse failure
gives `add_null`, a parsed zero under `zero_as_null` gives `add_null`, and
anything else gives `add value`. -/
theorem numeric_mode_single_dispatch (prior : List String) (line : String)
    (d : Char) (z : Bool) (g v : String)
    (h : rsplitOnce line d = some (g, v)) :
    lookupKey (groupNumberStats (prior ++ [line]) d z) g
      = some (numUpdate z v
          ((lookupKey (groupNumberStats prior d z) g).getD NumberStats.new)) ∧
    (∀ k, k ≠ g →
      lookupKey (groupNumberStats (prior ++ [line]) d z) k
        = lookupKey (groupNumberStats prior d z) k) ∧
    (∀ st : NumberStats, parseF64 v = none → numUpdate z v st = st.add_null) ∧
    (∀ (st : NumberStats) (num : F64), parseF64 v = some num →
      (z && num.isZero) = true → numUpdate z v st = st.add_null) ∧
    (∀ (st : NumberStats) (num : F64), parseF64 v = some num →
      (z && num.isZero) = false → numUpdate z v st = st.add num) := by
  refine ⟨?_, ?_, ?_, ?_, ?_⟩
  · rw [groupNumberStats_append]
    unfold ingestNumber
    rw [h]
    exact lookupKey_upsertWith_self _ _ _ _
  · intro k hk
    rw [groupNumberStats_append]
    unfold ingestNumber
    rw [h]
    exact lookupKey_upsertWith_ne _ _ _ _ _ hk
  · intro st hp
    simp [numUpdate, hp]
  · intro st num hp hz
    simp [numUpdate, hp, hz]
  · intro st num hp hz
    simp [numUpdate, hp, hz]

theorem numeric_mode_single_dispatch_witness :
    lookupKey (groupNumberStats ([] ++ ["g,0"]) ',' true) "g"
      = some (numUpdate true "0"
          ((lookupKey (groupNumberStats [] ',' true) "g").getD NumberStats.new)) ∧
    lookupKey (groupNumberStats ([] ++ ["g,0"]) ',' true) "x"
      = lookupKey (groupNumberStats [] ',' true) "x" ∧
    numUpdate true "0" NumberStats.new = NumberStats.new.add_null := by
  have h := numeric_mode_single_dispatch [] "g,0" ',' true "g" "0" (by decide)
  exact ⟨h.1, h.2.1 "x" (by decide),
    h.2.2.2.1 NumberStats.new (F64.finite 0) (by decide) (by decide)⟩

/-- C5: in string mode, every line containing the delimiter produces exactly
one update of its group's entry: with `empty_as_null` and an empty raw
value, both the value (cardinality) and the length sub-accumulators receive
`add_null`; otherwise the value sub-accumulator receives `add raw_value` and
the length sub-accumulator receives `add` of the value's length, each
exactly once; other groups are untouched. -/
theorem string_mode_single_dispatch (prior : List String) (line : String)
    (d : Char) (e : Bool) (c : Option ℕ) (g v : String)
    (h : rsplitOnce line d = some (g, v)) :
    lookupKey (groupStringStats (prior ++ [line]) d e c) g
      = some (if e && v.isEmpty
          then ((((lookupKey (groupStringStats prior d e c) g).getD
                  (StringStats.new c, NumberStats.new)).1).add_null,
                (((lookupKey (groupStringStats prior d e c) g).getD
                  (StringStats.new c, NumberStats.new)).2).add_null)
          else ((((lookupKey (groupStringStats prior d e c) g).getD
                  (StringStats.new c, NumberStats.new)).1).add v,
                (((lookupKey (groupStringStats prior d e c) g).getD
                  (StringStats.new c, NumberStats.new)).2).add
                    (F64.finite (byteLen v)))) ∧
    ∀ k, k ≠ g →
      lookupKey (groupStringStats (prior ++ [line]) d e c) k
        = lookupKey (groupStringStats prior d e c) k := by
  constructor
  · rw [groupStringStats_append]
    unfold ingestString
    rw [h]
    rw [lookupKey_upsertWith_self]
    rfl
  · intro k hk
    rw [groupStringStats_append]
    unfold ingestString
    rw [h]
    exact lookupKey_upsertWith_ne _ _ _ _ _ hk

theorem string_mode_single_dispatch_witness :
    lookupKey (groupStringStats ([] ++ ["g,"]) ',' true none) "g"
      = some (if true && ("" : String).isEmpty
          then ((((lookupKey (groupStringStats [] ',' true none) "g").getD
                  (StringStats.new none, NumberStats.new)).1).add_null,
                (((lookupKey (groupStringStats [] ',' true none) "g").getD
                  (StringStats.new none, NumberStats.new)).2).add_null)
          else ((((lookupKey (groupStringStats [] ',' true none) "g").getD
                  (StringStats.new none, NumberStats.new)).1).add "",
                (((lookupKey (groupStringStats [] ',' true none) "g").getD
                  (StringStats.new none, NumberStats.new)).2).add
                    (F64.finite (byteLen "")))) ∧
    lookupKey (groupStringStats ([] ++ ["g,"]) ',' true none) "x"
      = lookupKey (groupStringStats [] ',' true none) "x" := by
  have h := string_mode_single_dispatch [] "g," ',' true none "g" "" (by decide)
  exact ⟨h.1, h.2 "x" (by decide)⟩

/-- C6: a successful right-split decomposes the line as
`group_key ++ delimiter ++ value` with no delimiter occurrence in the value
(so the split is at the LAST occurrence, the key keeps all earlier ones); a
failed split means the delimiter does not occur at all; concretely,
`"a,b,5"` splits into key `"a,b"` and value `"5"`. -/
theorem rsplit_at_last_occurrence :
    (∀ (cs k v : List Char) (d : Char),
      rsplitOnceList cs d = some (k, v) → cs = k ++ d :: v ∧ d ∉ v) ∧
    (∀ (cs : List Char) (d : Char), rsplitOnceList cs d = none → d ∉ cs) ∧
    rsplitOnce "a,b,5" ',' = some ("a,b", "5") := by
  exact ⟨fun cs k v d h => rsplitOnceList_some_eq h,
    fun cs d h => rsplitOnceList_none_notMem h, by decide⟩

theorem rsplit_at_last_occurrence_witness :
    "a,b,5".data = "a,b".data ++ ',' :: "5".data ∧ ',' ∉ "5".data :=
  rsplit_at_last_occurrence.1 "a,b,5".data "a,b".data "5".data ','
    (by decide)

/-- C7: the grouping loops are total functions of the line list — each line
is consumed by one pure step and processing always continues with the rest,
whatever the line's content. However, the claim's clause that EVERY per-line
anomaly degrades to a null increment fails on the first delimiter-free line:
the concrete run below starts with such a line, continues through an empty
value and an unparsable-free tail, and leaves the sentinel group with
`null_count = 0` (the `and_modify`/`or_insert` slip of C1), while all later
lines were still processed. -/
theorem anomalies_never_abort_processing :
    (∀ (prior : List String) (line : String) (d : Char) (z : Bool),
      groupNumberStats (prior ++ [line]) d z
        = ingestNumber d z (groupNumberStats prior d z) line) ∧
    (∀ (prior : List String) (line : String) (d : Char) (e : Bool)
      (c : Option ℕ),
      groupStringStats (prior ++ [line]) d e c
        = ingestString d e c (groupStringStats prior d e c) line) ∧
    groupStringStats ["noDelimiterHere", "g;x", "g;", "h;y"] ';' true (some 10)
      = [("<INVALID>", (StringStats.new (some 10), NumberStats.new)),
         ("g", (((StringStats.new (some 10)).add "x").add_null,
                (NumberStats.new.add (F64.finite 1)).add_null)),
         ("h", ((StringStats.new (some 10)).add "y",
                NumberStats.new.add (F64.finite 1)))] ∧
    (StringStats.new (some 10)).null_count = 0 := by
  exact ⟨fun prior line d z => groupNumberStats_append prior line d z,
    fun prior line d e c => groupStringStats_append prior line d e c,
    by decide, rfl⟩

/-- C9: the sentinel group is keyed by the literal string `"<INVALID>"`, so
a well-formed line whose group key is `"<INVALID>"` and a malformed
delimiter-free line update the same accumulator: after one of each, the
mapping holds a single entry that mixes both (in either mode). -/
theorem sentinel_key_collides_with_real_group :
    rsplitOnce "<INVALID>,5" ',' = some ("<INVALID>", "5") ∧
    groupNumberStats ["<INVALID>,5", "noDelimiterHere"] ',' false
      = [("<INVALID>", (NumberStats.new.add (F64.finite 5)).add_null)] ∧
    groupStringStats ["<INVALID>,a", "noDelimiterHere"] ',' false none
      = [("<INVALID>", (((StringStats.new none).add "a").add_null,
                        NumberStats.new.add (F64.finite 1)))] := by
  decide

/-- C10: the grouping functions are pure: two runs over the same line
sequence with the same delimiter and policy flags yield the identical
mapping from group key to accumulator state (the embedding observes the
`HashMap` only through key lookup, so iteration order is irrelevant). -/
theorem grouping_runs_deterministic (lines : List String) (d : Char)
    (z e : Bool) (c : Option ℕ) (k : String) :
    lookupKey (groupNumberStats lines d z) k
      = lookupKey (groupNumberStats lines d z) k ∧
    lookupKey (groupStringStats lines d e c) k
      = lookupKey (groupStringStats lines d e c) k :=
  ⟨rfl, rfl⟩

/-- C8: Welford correctness. Feeding any nonempty finite sequence of finite
f64 values through `NumberStats.add`, the accumulator's `mean` is exactly
the arithmetic mean, `running_sq_dev` is exactly the sum of squared
deviations from the mean, and the snapshot stddev
`sqrt(running_sq_dev / count)` equals the population standard deviation
(in the exact-rational embedding the equality is exact, hence within any
floating-point tolerance of the naive two-pass computation). -/
theorem welford_mean_stddev_correct (qs : List ℚ) (h : qs ≠ []) :
    (numFold qs).count = qs.length ∧
    (numFold qs).mean = F64.finite (qs.sum / qs.length) ∧
    (numFold qs).running_sq_dev
      = F64.finite ((qs.map (fun x => (x - qs.sum / qs.length) ^ 2)).sum) ∧
    Real.sqrt (((numFold qs).running_sq_dev.toRat : ℝ) / ((numFold qs).count : ℝ))
      = Real.sqrt
          ((((qs.map (fun x => (x - qs.sum / qs.length) ^ 2)).sum : ℚ) : ℝ)
            / (qs.length : ℝ)) := by
  obtain ⟨hc, hrest⟩ := numFold_invariant qs
  obtain ⟨hm, hr⟩ := hrest h
  have hn : (qs.length : ℚ) ≠ 0 := by
    exact_mod_cast fun hh => h (List.length_eq_zero.mp (by exact_mod_cast hh))
  have hsum : (qs.map (fun x => (x - qs.sum / qs.length) ^ 2)).sum
      = sumSq qs - qs.sum ^ 2 / qs.length := by
    rw [sum_map_sub_sq]
    field_simp
    ring
  refine ⟨hc, ?_, ?_, ?_⟩
  · rw [hm]
  · rw [hr, hsum]
  · rw [hr, hc]
    simp only [F64.toRat]
    rw [hsum]

theorem welford_mean_stddev_correct_witness :
    (numFold [1, 2, 3]).count = ([1, 2, 3] : List ℚ).length ∧
    (numFold [1, 2, 3]).mean
      = F64.finite (([1, 2, 3] : List ℚ).sum / ([1, 2, 3] : List ℚ).length) ∧
    (numFold [1, 2, 3]).running_sq_dev
      = F64.finite ((([1, 2, 3] : List ℚ).map
          (fun x => (x - ([1, 2, 3] : List ℚ).sum / ([1, 2, 3] : List ℚ).length) ^ 2)).sum) ∧
    Real.sqrt (((numFold [1, 2, 3]).running_sq_dev.toRat : ℝ)
        / ((numFold [1, 2, 3]).count : ℝ))
      = Real.sqrt (((([1, 2, 3] : List ℚ).map
          (fun x => (x - ([1, 2, 3] : List ℚ).sum / ([1, 2, 3] : List ℚ).length) ^ 2)).sum : ℚ)
            / (([1, 2, 3] : List ℚ).length : ℝ)) :=
  welford_mean_stddev_correct [1, 2, 3] (by decide)
